import Mathlib

/-!
# golang-spotifycode: a shallow embedding of `spotifyCodeClient`

The development follows `src/spotifyCodeClient/main.go`.

* Go strings are byte sequences (`GoString`).
* Image coordinates are mathematical integers; bitmaps that exist in memory
  have dimensions far below the range of Go's `int`, so sums of dimensions do
  not wrap.  The one place where the `int` range is observable, the size check
  of `image.NewRGBA`, is modelled (`mul3NonNeg`).
* Network, file system and decoders are an explicit environment (`World`);
  a run yields the list of effects it performed and how it ended (`Run`).
-/

namespace SpotifyCodeClient

/-! ## Geometry: package `image` -/

/-- Go `image.Point`. -/
structure Point where
  X : Int
  Y : Int
deriving DecidableEq, Repr

/-- Go `image.Rectangle`: contains the points with `Min.X <= X < Max.X`,
`Min.Y <= Y < Max.Y`. -/
structure Rectangle where
  Min : Point
  Max : Point
deriving DecidableEq, Repr

/-- Go `image.Rect`: the returned rectangle has its corners swapped where
necessary so that it is well formed. -/
def Rect (x0 y0 x1 y1 : Int) : Rectangle :=
  let xs : Int × Int := if x0 > x1 then (x1, x0) else (x0, x1)
  let ys : Int × Int := if y0 > y1 then (y1, y0) else (y0, y1)
  { Min := { X := xs.1, Y := ys.1 }, Max := { X := xs.2, Y := ys.2 } }

/-- Go `Point.Sub`. -/
def Point.Sub (p q : Point) : Point := { X := p.X - q.X, Y := p.Y - q.Y }

/-- Go `Rectangle.Dx`: the width. -/
def Rectangle.Dx (r : Rectangle) : Int := r.Max.X - r.Min.X

/-- Go `Rectangle.Dy`: the height. -/
def Rectangle.Dy (r : Rectangle) : Int := r.Max.Y - r.Min.Y

/-- Go `Rectangle.Empty`. -/
def Rectangle.Empty (r : Rectangle) : Bool :=
  decide (r.Min.X ≥ r.Max.X) || decide (r.Min.Y ≥ r.Max.Y)

/-- Go `Rectangle.Add`: translation by `p`. -/
def Rectangle.Add (r : Rectangle) (p : Point) : Rectangle :=
  { Min := { X := r.Min.X + p.X, Y := r.Min.Y + p.Y },
    Max := { X := r.Max.X + p.X, Y := r.Max.Y + p.Y } }

/-- Go `image.ZR`, the zero rectangle. -/
def ZR : Rectangle := { Min := { X := 0, Y := 0 }, Max := { X := 0, Y := 0 } }

/-- Go `Rectangle.Intersect`: the largest rectangle contained in both, and the
zero rectangle when they do not overlap. -/
def Rectangle.Intersect (r s : Rectangle) : Rectangle :=
  let minX := if r.Min.X < s.Min.X then s.Min.X else r.Min.X
  let minY := if r.Min.Y < s.Min.Y then s.Min.Y else r.Min.Y
  let maxX := if r.Max.X > s.Max.X then s.Max.X else r.Max.X
  let maxY := if r.Max.Y > s.Max.Y then s.Max.Y else r.Max.Y
  let r1 : Rectangle := { Min := { X := minX, Y := minY }, Max := { X := maxX, Y := maxY } }
  if r1.Empty then ZR else r1

/-- Go `Point.In`. -/
def Point.In (p : Point) (r : Rectangle) : Bool :=
  decide (r.Min.X ≤ p.X) && decide (p.X < r.Max.X) &&
    decide (r.Min.Y ≤ p.Y) && decide (p.Y < r.Max.Y)

/-! ## Colours: package `image/color` -/

/-- A Go `color.Color`, seen through the only method of that interface:
`RGBA()`, the four alpha-premultiplied channels with 16 bits each. -/
structure Color where
  R : Nat
  G : Nat
  B : Nat
  A : Nat
deriving DecidableEq, Repr

/-- Go `color.RGBA`: four channels with 8 bits each, the pixel type of an
`image.RGBA`. -/
structure RGBA where
  R : Nat
  G : Nat
  B : Nat
  A : Nat
deriving DecidableEq, Repr

/-- The zero value `color.RGBA{}` (transparent black). -/
def RGBA.zero : RGBA := { R := 0, G := 0, B := 0, A := 0 }

/-- Go `uint8(v >> 8)` on a `uint32`. -/
def hi8 (v : Nat) : Nat := (v / 256) % 256

/-- What `draw.Draw` with `draw.Src` stores in an `image.RGBA` for a source
pixel `c`: `uint8(r >> 8)` of each channel of `c.RGBA()`; this is
`color.RGBAModel.Convert`. -/
def rgbaModel (c : Color) : RGBA :=
  { R := hi8 c.R, G := hi8 c.G, B := hi8 c.B, A := hi8 c.A }

/-- Method `RGBA()` of `color.RGBA`: each channel `v` becomes `v | v << 8`. -/
def RGBA.toColor (c : RGBA) : Color :=
  { R := c.R * 257, G := c.G * 257, B := c.B * 257, A := c.A * 257 }

/-! ## Images: packages `image` and `image/draw` -/

/-- A Go `image.Image`, seen through its interface: `Bounds()` and `At(x, y)`. -/
structure Image where
  Bounds : Rectangle
  At : Int → Int → Color

/-- Go `*image.RGBA`.  The pixel buffer `Pix` is indexed by coordinates here
(the byte offset `PixOffset(x, y)` is not modelled). -/
structure RGBAImage where
  Pix : Int → Int → RGBA
  Rect : Rectangle

/-- Go `(*image.RGBA).Bounds`. -/
def RGBAImage.Bounds (p : RGBAImage) : Rectangle := p.Rect

/-- Go `(*image.RGBA).RGBAAt`: the zero colour outside the bounds. -/
def RGBAImage.RGBAAt (p : RGBAImage) (x y : Int) : RGBA :=
  if !(Point.In { X := x, Y := y } p.Rect) then RGBA.zero else p.Pix x y

/-- Go `(*image.RGBA).At`. -/
def RGBAImage.At (p : RGBAImage) (x y : Int) : Color := (p.RGBAAt x y).toColor

/-- An `*image.RGBA` used as an `image.Image`. -/
def RGBAImage.toImage (p : RGBAImage) : Image := { Bounds := p.Bounds, At := p.At }

/-- Go `image.mul3NonNeg`: the product of three `int`s, or `-1` when an
argument is negative or a product leaves the range of `int` (64 bits). -/
def mul3NonNeg (x y z : Int) : Int :=
  if x < 0 ∨ y < 0 ∨ z < 0 then -1
  else if x * y ≥ 2 ^ 64 then -1
  else if x * y * z ≥ 2 ^ 64 then -1
  else if x * y * z ≥ 2 ^ 63 then -1
  else x * y * z

/-- Go `image.NewRGBA`: a zeroed canvas with the given bounds; `none` is the
panic of `pixelBufferLength` ("Rectangle has huge or negative dimensions"). -/
def NewRGBA (r : Rectangle) : Option RGBAImage :=
  if mul3NonNeg 4 r.Dx r.Dy < 0 then none
  else some { Pix := fun _ _ => RGBA.zero, Rect := r }

/-- Go `draw.clip` without a mask: `r` is cut down to the destination and to
the source, and the source point is moved along with `r.Min`. -/
def clip (dst : RGBAImage) (r : Rectangle) (src : Image) (sp : Point) : Rectangle × Point :=
  let orig := r.Min
  let r1 := r.Intersect dst.Bounds
  let r2 := r1.Intersect (src.Bounds.Add (orig.Sub sp))
  let dx := r2.Min.X - orig.X
  let dy := r2.Min.Y - orig.Y
  if dx = 0 ∧ dy = 0 then (r2, sp) else (r2, { X := sp.X + dx, Y := sp.Y + dy })

/-- Go `draw.Draw(dst, r, src, sp, draw.Src)` for an `*image.RGBA`
destination: every pixel of the clipped rectangle is overwritten with the
source pixel aligned to it, converted to `color.RGBA`; nothing else changes. -/
def Draw (dst : RGBAImage) (r : Rectangle) (src : Image) (sp : Point) : RGBAImage :=
  let c := clip dst r src sp
  if c.1.Empty then dst
  else
    { dst with
      Pix := fun x y =>
        if Point.In { X := x, Y := y } c.1 then
          rgbaModel (src.At (c.2.X + (x - c.1.Min.X)) (c.2.Y + (y - c.1.Min.Y)))
        else dst.Pix x y }

/-- The stitching part of `GetCode` (main.go, lines 167-172): a canvas as wide
as the cover and as high as cover and code together, the cover drawn at the
top, the code drawn below it. -/
def stitch (spotifyImage spotifyCode : Image) : Option RGBAImage :=
  match NewRGBA (Rect 0 0 spotifyImage.Bounds.Dx
      (spotifyImage.Bounds.Dy + spotifyCode.Bounds.Dy)) with
  | none => none
  | some result =>
    let result1 := Draw result spotifyImage.Bounds spotifyImage { X := 0, Y := 0 }
    let result2 := Draw result1
      (spotifyCode.Bounds.Add { X := 0, Y := spotifyImage.Bounds.Dy }) spotifyCode { X := 0, Y := 0 }
    some result2

/-! ## Strings: packages `strings`, `fmt` and `net/url` -/

/-- A byte. -/
abbrev Byte := Fin 256

/-- A Go `string`: a sequence of bytes. -/
abbrev GoString := List Byte

/-- The Go string of an ASCII literal. -/
def ascii (s : String) : GoString := s.data.map (fun c => Fin.ofNat c.toNat)

/-- The byte `:`. -/
def colon : Byte := 58

/-- The byte `#`. -/
def hash : Byte := 35

/-- Go `strings.HasPrefix`. -/
def HasPrefix : GoString → GoString → Bool
  | _, [] => true
  | [], _ :: _ => false
  | c :: s, d :: p => decide (c = d) && HasPrefix s p

/-- Go `strings.Index`: the position of the first occurrence of `substr` in
`s`; `none` stands for `-1`. -/
def Index (substr : GoString) : GoString → Option Nat
  | [] => if HasPrefix [] substr then some 0 else none
  | c :: s =>
    if HasPrefix (c :: s) substr then some 0
    else (Index substr s).map (fun m => m + 1)

/-- The loop of Go `strings.genSplit` (with `sepSave = 0`, a non-empty `sep`
and `n > 0`): `k` is the number of cuts still allowed, `n - 1 - i`. -/
def genSplitLoop (sep : GoString) : Nat → GoString → List GoString
  | 0, s => [s]
  | k + 1, s =>
    match Index sep s with
    | none => [s]
    | some m => s.take m :: genSplitLoop sep k (s.drop (m + sep.length))

/-- Go `strings.SplitN(s, sep, n)` for `n >= 0` and a non-empty separator
(the only use in the program is `SplitN(spotifyUri, ":", 3)`): at most `n`
parts, the last one being the unsplit remainder. -/
def SplitN (s sep : GoString) (n : Nat) : List GoString :=
  match n with
  | 0 => []
  | k + 1 => genSplitLoop sep k s

/-- The loop of Go `strings.Replace` for a non-empty `old`: `k` replacements
are still to be made. -/
def replaceLoop (old new : GoString) : Nat → GoString → GoString
  | 0, s => s
  | k + 1, s =>
    match Index old s with
    | none => s
    | some j => s.take j ++ new ++ replaceLoop old new k (s.drop (j + old.length))

/-- Go `strings.Replace(s, old, new, n)` for `n >= 0` and a non-empty `old`
(the only use in the program is `Replace(color, "#", "", 1)`): the first `n`
occurrences of `old` are replaced by `new`. -/
def Replace (s old new : GoString) (n : Nat) : GoString :=
  if old = new ∨ n = 0 then s else replaceLoop old new n s

/-- Go `fmt.Sprintf("%d", n)` for an `int`. -/
def formatInt (n : Int) : GoString :=
  match n with
  | Int.ofNat m => ascii (String.mk (Nat.toDigits 10 m))
  | Int.negSucc m => ascii "-" ++ ascii (String.mk (Nat.toDigits 10 (m + 1)))

/-- The unreserved characters of `net/url` (`shouldEscape` answers `false`
for them in every mode): letters, digits, `-`, `_`, `.`, `~`. -/
def unreserved (c : Byte) : Bool :=
  (decide (97 ≤ c.val) && decide (c.val ≤ 122)) ||
  (decide (65 ≤ c.val) && decide (c.val ≤ 90)) ||
  (decide (48 ≤ c.val) && decide (c.val ≤ 57)) ||
  decide (c.val = 45) || decide (c.val = 95) || decide (c.val = 46) || decide (c.val = 126)

/-- Go `url.shouldEscape(c, encodeQueryComponent)`: everything but the
unreserved characters is escaped. -/
def shouldEscape (c : Byte) : Bool := !unreserved c

/-- The table `"0123456789ABCDEF"` of `net/url`, indexed by `n < 16`. -/
def upperhex (n : Nat) : Byte := if n < 10 then Fin.ofNat (48 + n) else Fin.ofNat (55 + n)

/-- Go `url.ishex`. -/
def ishex (c : Byte) : Bool :=
  (decide (48 ≤ c.val) && decide (c.val ≤ 57)) ||
  (decide (97 ≤ c.val) && decide (c.val ≤ 102)) ||
  (decide (65 ≤ c.val) && decide (c.val ≤ 70))

/-- Go `url.unhex`. -/
def unhex (c : Byte) : Nat :=
  if 48 ≤ c.val ∧ c.val ≤ 57 then c.val - 48
  else if 97 ≤ c.val ∧ c.val ≤ 102 then c.val - 97 + 10
  else if 65 ≤ c.val ∧ c.val ≤ 70 then c.val - 65 + 10
  else 0

/-- One step of Go `url.escape(s, encodeQueryComponent)`: a space becomes
`+`, a byte to escape becomes `%XX`, any other byte is kept. -/
def escapeByte (c : Byte) : GoString :=
  if c.val = 32 then [43]
  else if shouldEscape c then [37, upperhex (c.val / 16), upperhex (c.val % 16)]
  else [c]

/-- Go `url.QueryEscape`. -/
def QueryEscape (s : GoString) : GoString := s.flatMap escapeByte

/-- Go `url.QueryUnescape`: `%XX` becomes the byte `XX`, `+` becomes a space;
`none` is the `EscapeError` for a `%` not followed by two hex digits. -/
def QueryUnescape : GoString → Option GoString
  | [] => some []
  | c :: rest =>
    if c.val = 37 then
      match rest with
      | h :: l :: rest2 =>
        if ishex h && ishex l then
          (QueryUnescape rest2).map (fun t => Fin.ofNat (unhex h * 16 + unhex l) :: t)
        else none
      | _ => none
    else if c.val = 43 then (QueryUnescape rest).map (fun t => (32 : Byte) :: t)
    else (QueryUnescape rest).map (fun t => c :: t)

/-- The shape the specification gives to an encoded segment: a sequence of
unreserved characters, `+`, and escapes `%XX` with two upper-case hex
digits. -/
def escapedOnly : GoString → Bool
  | [] => true
  | c :: rest =>
    if c.val = 37 then
      match rest with
      | h :: l :: rest2 =>
        ((decide (48 ≤ h.val) && decide (h.val ≤ 57)) || (decide (65 ≤ h.val) && decide (h.val ≤ 70)))
          && ((decide (48 ≤ l.val) && decide (l.val ≤ 57)) ||
                (decide (65 ≤ l.val) && decide (l.val ≤ 70)))
          && escapedOnly rest2
      | _ => false
    else (unreserved c || decide (c.val = 43)) && escapedOnly rest

/-! ## Effects: packages `net/http`, `encoding/json`, `os`, `log` -/

/-- An `http.Request` as the program builds it: method, URL and the headers
it adds. -/
structure Request where
  method : GoString
  url : GoString
  header : List (GoString × GoString)
deriving DecidableEq, Repr

/-- Go type `Image` of main.go: one entry of the `images` list. -/
structure ImageEntry where
  Url : GoString
  Width : Int
  Height : Int
deriving DecidableEq, Repr

/-- Go type `SpotifyAlbumResponse` of main.go.  A list absent from the JSON
leaves `Images` nil, which is the empty list here. -/
structure SpotifyAlbumResponse where
  Images : List ImageEntry
deriving DecidableEq, Repr

/-- Go type `SpotifyCode` of main.go. -/
structure SpotifyCode where
  spClientId : GoString
  spClientSecret : GoString
  spAccessToken : GoString
deriving DecidableEq, Repr

/-- The ways the program calls `log.Fatal`, which ends the process. -/
inductive Fatal where
  | malformedURI
  | notImplemented
  | transport
  | decodingResponse
  | decodingImage
deriving DecidableEq, Repr

/-- The run-time panics the program can reach. -/
inductive GoPanic where
  | indexOutOfRange
  | nilRequest
  | hugeRectangle
deriving DecidableEq, Repr

/-- The message of a `log.Fatal` call (for a transport failure the message is
the error of the HTTP client, which is not modelled). -/
def Fatal.message : Fatal → GoString
  | .malformedURI => ascii "SpotifyURI is malformed!"
  | .notImplemented => ascii "No implemented behavior for content_type!"
  | .transport => []
  | .decodingResponse => ascii "Error decoding response:"
  | .decodingImage => ascii "Error decoding image:"

/-- What a run does to the outside, one event per call:
`http.NewRequest(method, url, nil)`, `http.DefaultClient.Do(req)`,
`os.Create(name)`, `png.Encode` into the file `name`, `fmt.Println(msg, err)`
(the error text is not modelled) and the deferred `file.Close()`. -/
inductive Event where
  | newRequest (method url : GoString)
  | send (req : Request)
  | create (name : GoString)
  | encode (name : GoString)
  | println (msg : GoString)
  | close (name : GoString)
deriving DecidableEq, Repr

/-- How a function ends: it returns a value, the process exits through
`log.Fatal`, or it panics. -/
inductive Outcome (α : Type) where
  | returned (a : α)
  | fatal (f : Fatal)
  | panicked (p : GoPanic)

/-- A run: the effects in order, and the way it ended. -/
structure Run (α : Type) where
  events : List Event
  outcome : Outcome α

/-- The environment of a run.
* `parseURL u`: `http.NewRequest` accepts the URL `u` (it returns a nil
  request otherwise, and the program ignores the error);
* `roundTrip req`: the body answered to `http.DefaultClient.Do(req)`, `none`
  when `Do` returns an error;
* `decodeAlbum`, `decodeImage`: `json.Decoder.Decode` and `image.Decode` on a
  body, `none` when they return an error;
* `dominantHex`: `dominantcolor.Hex(dominantcolor.Find(img))`;
* `createOk`, `encodeOk`: `os.Create` and `png.Encode` succeed. -/
structure World where
  parseURL : GoString → Bool
  roundTrip : Request → Option GoString
  decodeAlbum : GoString → Option SpotifyAlbumResponse
  decodeImage : GoString → Option Image
  dominantHex : Image → GoString
  createOk : GoString → Bool
  encodeOk : Image → Bool

/-- Sequencing of runs: the second starts when the first has returned. -/
def Run.andThen {α β : Type} (r : Run α) (k : α → Run β) : Run β :=
  match r.outcome with
  | .returned a => { events := r.events ++ (k a).events, outcome := (k a).outcome }
  | .fatal f => { events := r.events, outcome := .fatal f }
  | .panicked p => { events := r.events, outcome := .panicked p }

/-- The common tail of `getSpotifyImage` and `getCode` (main.go, lines
106-117 and 127-140): build a GET request without headers for `url`, send
it, decode the body as an image. -/
def fetchImage (w : World) (url : GoString) : Run Image :=
  let req : Request := { method := ascii "GET", url := url, header := [] }
  if !w.parseURL url then
    { events := [.newRequest (ascii "GET") url], outcome := .panicked .nilRequest }
  else
    match w.roundTrip req with
    | none =>
      { events := [.newRequest (ascii "GET") url, .send req], outcome := .fatal .transport }
    | some body =>
      match w.decodeImage body with
      | none =>
        { events := [.newRequest (ascii "GET") url, .send req], outcome := .fatal .decodingImage }
      | some img =>
        { events := [.newRequest (ascii "GET") url, .send req], outcome := .returned img }

/-- The URL chosen by the `switch` of `getSpotifyImage` (main.go, lines
83-90); `none` is the `default` branch, which calls `log.Fatal`.  The
`"artist"` case has an empty body and Go does not fall through, so `url`
keeps its zero value there. -/
def resourceURL (content_type uri : GoString) : Option GoString :=
  if content_type = ascii "album" then
    some (ascii "https://api.spotify.com/v1/albums/" ++ uri)
  else if content_type = ascii "artist" then
    some []
  else none

/-- Go `getSpotifyImage` (main.go, lines 75-119). -/
def getSpotifyImage (w : World) (sc : SpotifyCode) (spotifyUri : GoString) : Run Image :=
  let parts := SplitN spotifyUri (ascii ":") 3
  if parts.length ≠ 3 then
    { events := [], outcome := .fatal .malformedURI }
  else
    let content_type := parts.getD 1 []
    let uri := parts.getD 2 []
    match resourceURL content_type uri with
    | none => { events := [], outcome := .fatal .notImplemented }
    | some url =>
      let req : Request :=
        { method := ascii "GET", url := url,
          header := [(ascii "Authorization", ascii "Bearer " ++ sc.spAccessToken)] }
      if !w.parseURL url then
        { events := [.newRequest (ascii "GET") url], outcome := .panicked .nilRequest }
      else
        match w.roundTrip req with
        | none =>
          { events := [.newRequest (ascii "GET") url, .send req], outcome := .fatal .transport }
        | some body =>
          match w.decodeAlbum body with
          | none =>
            { events := [.newRequest (ascii "GET") url, .send req],
              outcome := .fatal .decodingResponse }
          | some spotifyAlbumResponse =>
            match spotifyAlbumResponse.Images[0]? with
            | none =>
              { events := [.newRequest (ascii "GET") url, .send req],
                outcome := .panicked .indexOutOfRange }
            | some first =>
              let rest := fetchImage w first.Url
              { events := [.newRequest (ascii "GET") url, .send req] ++ rest.events,
                outcome := rest.outcome }

/-- Line 124 of `getCode`: `strings.Replace(color, "#", "", 1)`. -/
def stripColor (color : GoString) : GoString := Replace color (ascii "#") [] 1

/-- The argument of `url.QueryEscape` on line 126 of `getCode`:
`fmt.Sprintf("/%v/%v/%d/%v", color, barColor, size, spotifyUri)`. -/
def segment (spotifyUri color barColor : GoString) (size : Int) : GoString :=
  ascii "/" ++ color ++ ascii "/" ++ barColor ++ ascii "/" ++ formatInt size ++ ascii "/"
    ++ spotifyUri

/-- Lines 125-126 of `getCode`, for the colour that line 124 has left. -/
def rawURL (spotifyUri color barColor : GoString) (size : Int) (format : GoString) : GoString :=
  let raw_url := ascii "https://www.spotifycodes.com/downloadCode.php?uri=" ++ format
  raw_url ++ QueryEscape (segment spotifyUri color barColor size)

/-- Go `getCode` (main.go, lines 122-142). -/
def getCode (w : World) (spotifyUri color barColor : GoString) (size : Int)
    (format : GoString) : Run Image :=
  fetchImage w (rawURL spotifyUri (stripColor color) barColor size format)

/-- Go `SaveImage` (main.go, lines 144-158). -/
def SaveImage (w : World) (img : Image) (fname : GoString) : Run Unit :=
  let fname1 := fname ++ ascii ".png"
  if !w.createOk fname1 then
    { events := [.create fname1, .println (ascii "Error creating file:")],
      outcome := .returned () }
  else if !w.encodeOk img then
    { events := [.create fname1, .encode fname1, .println (ascii "Error encoding image:"),
        .close fname1],
      outcome := .returned () }
  else
    { events := [.create fname1, .encode fname1, .close fname1], outcome := .returned () }

/-- Go `GetCode` (main.go, lines 160-173). -/
def GetCode (w : World) (sc : SpotifyCode) (spotifyUri : GoString) : Run Image :=
  (getSpotifyImage w sc spotifyUri).andThen fun spotifyImage =>
    let dominantColor := w.dominantHex spotifyImage
    let size := spotifyImage.Bounds.Dx
    (getCode w spotifyUri dominantColor (ascii "white") size (ascii "png")).andThen
      fun spotifyCode =>
        match stitch spotifyImage spotifyCode with
        | none => { events := [], outcome := .panicked .hugeRectangle }
        | some result => { events := [], outcome := .returned result.toImage }

/-! ## A concrete environment, used to run the definitions -/

/-- A 2x2 cover whose pixels have 16 significant bits per channel. -/
def exampleCover : Image :=
  { Bounds := Rect 0 0 2 2, At := fun _ _ => { R := 4660, G := 4660, B := 4660, A := 65535 } }

/-- A 1x1 white code image. -/
def exampleCode : Image :=
  { Bounds := Rect 0 0 1 1, At := fun _ _ => { R := 65535, G := 65535, B := 65535, A := 65535 } }

/-- An environment in which every request is answered with its own URL as
the body; the album has two image entries, and the body `cover.png` decodes to
`exampleCover`, any other body to `exampleCode`. -/
def exampleWorld : World :=
  { parseURL := fun _ => true
    roundTrip := fun req => some req.url
    decodeAlbum := fun _ =>
      some { Images := [{ Url := ascii "cover.png", Width := 2, Height := 2 },
                        { Url := ascii "large.png", Width := 640, Height := 640 }] }
    decodeImage := fun body => if body = ascii "cover.png" then some exampleCover else some exampleCode
    dominantHex := fun _ => ascii "#123456"
    createOk := fun _ => true
    encodeOk := fun _ => true }

/-- A client holding the access token `tok123`. -/
def exampleClient : SpotifyCode :=
  { spClientId := [], spClientSecret := [], spAccessToken := ascii "tok123" }

/-- The environment `exampleWorld`, except that the album response has no
images. -/
def emptyAlbumWorld : World :=
  { exampleWorld with decodeAlbum := fun _ => some { Images := [] } }

/-- An environment in which no file can be created. -/
def readOnlyWorld : World :=
  { exampleWorld with createOk := fun _ => false }

/-- The composite of `exampleCover` and `exampleCode`. -/
def exampleComposite : Image :=
  match stitch exampleCover exampleCode with
  | some result => result.toImage
  | none => exampleCover

/-! ## Geometry lemmas -/

theorem In_iff (p : Point) (r : Rectangle) :
    Point.In p r = true ↔ r.Min.X ≤ p.X ∧ p.X < r.Max.X ∧ r.Min.Y ≤ p.Y ∧ p.Y < r.Max.Y := by
  simp [Point.In, and_assoc]

theorem Empty_iff (r : Rectangle) :
    r.Empty = true ↔ r.Max.X ≤ r.Min.X ∨ r.Max.Y ≤ r.Min.Y := by
  simp [Rectangle.Empty]

theorem In_Intersect (p : Point) (r s : Rectangle) :
    Point.In p (r.Intersect s) = true ↔ Point.In p r = true ∧ Point.In p s = true := by
  simp only [Rectangle.Intersect]
  split_ifs <;> simp only [In_iff, Empty_iff, ZR] at * <;> omega

theorem not_Empty_of_In (p : Point) (r : Rectangle) (h : Point.In p r = true) :
    r.Empty = false := by
  rw [In_iff] at h
  cases hE : r.Empty
  · rfl
  · rw [Empty_iff] at hE; omega

theorem clip_fst (dst : RGBAImage) (r : Rectangle) (src : Image) (sp : Point) :
    (clip dst r src sp).1 =
      (r.Intersect dst.Bounds).Intersect (src.Bounds.Add (r.Min.Sub sp)) := by
  simp only [clip]
  split_ifs <;> rfl

theorem clip_snd (dst : RGBAImage) (r : Rectangle) (src : Image) (sp : Point) :
    (clip dst r src sp).2.X - (clip dst r src sp).1.Min.X = sp.X - r.Min.X ∧
    (clip dst r src sp).2.Y - (clip dst r src sp).1.Min.Y = sp.Y - r.Min.Y := by
  simp only [clip]
  split_ifs with h
  · simp only []; omega
  · simp only []; omega

theorem Draw_Rect (dst : RGBAImage) (r : Rectangle) (src : Image) (sp : Point) :
    (Draw dst r src sp).Rect = dst.Rect := by
  simp only [Draw]
  split_ifs <;> rfl

/-- What `draw.Draw` leaves at `(x, y)`: inside the rectangle, the destination
and the aligned source it is the converted source pixel, elsewhere the old
pixel. -/
theorem Draw_Pix (dst : RGBAImage) (r : Rectangle) (src : Image) (sp : Point) (x y : Int) :
    (Draw dst r src sp).Pix x y =
      if Point.In { X := x, Y := y } r = true ∧ Point.In { X := x, Y := y } dst.Bounds = true ∧
          Point.In { X := x, Y := y } (src.Bounds.Add (r.Min.Sub sp)) = true then
        rgbaModel (src.At (sp.X + (x - r.Min.X)) (sp.Y + (y - r.Min.Y)))
      else dst.Pix x y := by
  have hin : Point.In { X := x, Y := y } (clip dst r src sp).1 = true ↔
      (Point.In { X := x, Y := y } r = true ∧ Point.In { X := x, Y := y } dst.Bounds = true ∧
          Point.In { X := x, Y := y } (src.Bounds.Add (r.Min.Sub sp)) = true) := by
    rw [clip_fst, In_Intersect, In_Intersect, and_assoc]
  have hsp := clip_snd dst r src sp
  simp only [Draw]
  by_cases hE : (clip dst r src sp).1.Empty = true
  · rw [if_pos hE]
    have hno : ¬ Point.In { X := x, Y := y } (clip dst r src sp).1 = true := by
      intro hc
      have := not_Empty_of_In _ _ hc
      rw [this] at hE
      exact Bool.noConfusion hE
    rw [if_neg (fun hc => hno (hin.mpr hc))]
  · rw [if_neg hE]
    simp only []
    by_cases hc : Point.In { X := x, Y := y } (clip dst r src sp).1 = true
    · rw [if_pos hc, if_pos (hin.mp hc)]
      have e1 : (clip dst r src sp).2.X + (x - (clip dst r src sp).1.Min.X)
          = sp.X + (x - r.Min.X) := by omega
      have e2 : (clip dst r src sp).2.Y + (y - (clip dst r src sp).1.Min.Y)
          = sp.Y + (y - r.Min.Y) := by omega
      rw [e1, e2]
    · rw [if_neg hc, if_neg (fun h => hc (hin.mpr h))]

theorem mul3NonNeg_nonneg_iff (w h : Int) (hw : 0 ≤ w) (hh : 0 < h) :
    ¬ mul3NonNeg 4 w h < 0 ↔ 4 * w * h < 2 ^ 63 := by
  unfold mul3NonNeg
  have h1 : 4 * w ≤ 4 * w * h := by nlinarith
  have h2 : 0 ≤ 4 * w * h := by nlinarith
  split_ifs with a b c d
  · omega
  · constructor
    · intro hc; exact absurd (by norm_num : (-1 : Int) < 0) hc
    · intro hc; have : (2 : Int) ^ 63 ≤ 2 ^ 64 := by norm_num
      omega
  · constructor
    · intro hc; exact absurd (by norm_num : (-1 : Int) < 0) hc
    · intro hc; have : (2 : Int) ^ 63 ≤ 2 ^ 64 := by norm_num
      omega
  · constructor
    · intro hc; exact absurd (by norm_num : (-1 : Int) < 0) hc
    · intro hc; omega
  · constructor
    · intro _; omega
    · intro _; omega

/-- The canvas of `stitch` for bitmaps of non-negative size: the result exists
exactly when `NewRGBA` accepts the size, and its bounds are
`(0, 0)-(cover width, cover height + code height)`. -/
theorem stitch_Rect (cover code : Image) (result : RGBAImage)
    (hw : 0 ≤ cover.Bounds.Dx) (hh : 0 ≤ cover.Bounds.Dy + code.Bounds.Dy)
    (hs : stitch cover code = some result) :
    result.Rect =
      Rectangle.mk (Point.mk 0 0)
        (Point.mk cover.Bounds.Dx (cover.Bounds.Dy + code.Bounds.Dy)) := by
  unfold stitch at hs
  cases hN : NewRGBA (Rect 0 0 cover.Bounds.Dx (cover.Bounds.Dy + code.Bounds.Dy)) with
  | none => rw [hN] at hs; exact Option.noConfusion hs
  | some c0 =>
    rw [hN] at hs
    simp only [Option.some.injEq] at hs
    rw [← hs, Draw_Rect, Draw_Rect]
    unfold NewRGBA at hN
    split_ifs at hN
    simp only [Option.some.injEq] at hN
    rw [← hN]
    simp only [Rect]
    rw [if_neg (by omega), if_neg (by omega)]

theorem stitch_isSome_iff (cover code : Image)
    (hw : 0 ≤ cover.Bounds.Dx) (hh : 0 < cover.Bounds.Dy + code.Bounds.Dy) :
    (stitch cover code).isSome = true ↔
      4 * cover.Bounds.Dx * (cover.Bounds.Dy + code.Bounds.Dy) < 2 ^ 63 := by
  have hR : (Rect 0 0 cover.Bounds.Dx (cover.Bounds.Dy + code.Bounds.Dy)).Dx = cover.Bounds.Dx ∧
      (Rect 0 0 cover.Bounds.Dx (cover.Bounds.Dy + code.Bounds.Dy)).Dy
        = cover.Bounds.Dy + code.Bounds.Dy := by
    simp only [Rect]
    rw [if_neg (by omega), if_neg (by omega)]
    simp [Rectangle.Dx, Rectangle.Dy]
  have hm := mul3NonNeg_nonneg_iff cover.Bounds.Dx (cover.Bounds.Dy + code.Bounds.Dy) hw hh
  unfold stitch NewRGBA
  rw [hR.1, hR.2]
  by_cases hc : mul3NonNeg 4 cover.Bounds.Dx (cover.Bounds.Dy + code.Bounds.Dy) < 0
  · rw [if_pos hc]
    simp only [Option.isSome_none]
    constructor
    · intro h; exact Bool.noConfusion h
    · intro h; exact absurd hc (hm.mpr h)
  · rw [if_neg hc]
    simp only [Option.isSome_some, true_iff]
    exact hm.mp hc

/-- The pixels of the stitched canvas, for bitmaps whose bounds start at the
origin. -/
theorem stitch_Pix (cover code : Image) (result : RGBAImage)
    (hc0 : cover.Bounds.Min = Point.mk 0 0) (hd0 : code.Bounds.Min = Point.mk 0 0)
    (hcx : 0 ≤ cover.Bounds.Max.X) (hcy : 0 ≤ cover.Bounds.Max.Y)
    (hdy : 0 ≤ code.Bounds.Max.Y)
    (hs : stitch cover code = some result) (x y : Int)
    (hin : Point.In (Point.mk x y) result.Bounds = true) :
    (y < cover.Bounds.Max.Y → result.RGBAAt x y = rgbaModel (cover.At x y)) ∧
    (cover.Bounds.Max.Y ≤ y → x < code.Bounds.Max.X →
      result.RGBAAt x y = rgbaModel (code.At x (y - cover.Bounds.Max.Y))) ∧
    (cover.Bounds.Max.Y ≤ y → code.Bounds.Max.X ≤ x → result.RGBAAt x y = RGBA.zero) := by
  have hDx : cover.Bounds.Dx = cover.Bounds.Max.X := by simp [Rectangle.Dx, hc0]
  have hDy : cover.Bounds.Dy = cover.Bounds.Max.Y := by simp [Rectangle.Dy, hc0]
  have hDy2 : code.Bounds.Dy = code.Bounds.Max.Y := by simp [Rectangle.Dy, hd0]
  have hRect := stitch_Rect cover code result (by omega) (by omega) hs
  rw [hDx, hDy, hDy2] at hRect
  unfold RGBAImage.Bounds at hin
  have hat : result.RGBAAt x y = result.Pix x y := by
    unfold RGBAImage.RGBAAt
    rw [hin]; rfl
  rw [hat]
  rw [hRect, In_iff] at hin
  simp only [] at hin
  unfold stitch at hs
  cases hN : NewRGBA (Rect 0 0 cover.Bounds.Dx (cover.Bounds.Dy + code.Bounds.Dy)) with
  | none => rw [hN] at hs; exact Option.noConfusion hs
  | some c0 =>
    rw [hN] at hs
    simp only [Option.some.injEq] at hs
    have hcan : c0 = RGBAImage.mk (fun _ _ => RGBA.zero)
        (Rect 0 0 cover.Bounds.Dx (cover.Bounds.Dy + code.Bounds.Dy)) := by
      unfold NewRGBA at hN
      split_ifs at hN
      simp only [Option.some.injEq] at hN
      exact hN.symm
    have hc0Rect : c0.Rect = Rectangle.mk (Point.mk 0 0)
        (Point.mk cover.Bounds.Max.X (cover.Bounds.Max.Y + code.Bounds.Max.Y)) := by
      rw [hcan]
      simp only [Rect, hDx, hDy, hDy2]
      rw [if_neg (by omega), if_neg (by omega)]
    have hc0Pix : ∀ a b, c0.Pix a b = RGBA.zero := by
      intro a b; rw [hcan]
    rw [← hs, Draw_Pix, Draw_Pix, hc0Pix]
    simp only [In_iff, Rectangle.Add, Point.Sub, hc0, hd0, hDy, sub_zero, zero_add, add_zero,
      RGBAImage.Bounds, Draw_Rect, hc0Rect]
    refine ⟨fun h1 => ?_, fun h1 h2 => ?_, fun h1 h2 => ?_⟩
    · rw [if_neg (by omega), if_pos (by omega)]
    · rw [if_pos (by omega)]
    · rw [if_neg (by omega), if_neg (by omega)]

/-! ## `GetCode` -/

/-- When both downloads return, `GetCode` ends as the stitching does. -/
theorem GetCode_outcome (w : World) (sc : SpotifyCode) (uri : GoString) (cover code : Image)
    (hcover : (getSpotifyImage w sc uri).outcome = .returned cover)
    (hcode : (getCode w uri (w.dominantHex cover) (ascii "white") cover.Bounds.Dx
      (ascii "png")).outcome = .returned code) :
    (GetCode w sc uri).outcome =
      match stitch cover code with
      | none => .panicked .hugeRectangle
      | some result => .returned result.toImage := by
  unfold GetCode Run.andThen
  rw [hcover]
  simp only []
  rw [hcode]
  simp only []
  cases stitch cover code <;> rfl

/-- C1. For every cover bitmap and code bitmap with non-zero dimensions that
the two downloads of `GetCode` return, `GetCode` returns an image exactly when
`image.NewRGBA` accepts the canvas size (`4 * width * height` fits in an
`int`); the returned image is as wide as the cover and as high as the cover
and the code image together, whatever the width of the code image. -/
theorem GetCode_dimensions (w : World) (sc : SpotifyCode) (uri : GoString) (cover code : Image)
    (hcover : (getSpotifyImage w sc uri).outcome = .returned cover)
    (hcode : (getCode w uri (w.dominantHex cover) (ascii "white") cover.Bounds.Dx
      (ascii "png")).outcome = .returned code)
    (hw1 : 0 < cover.Bounds.Dx) (hh1 : 0 < cover.Bounds.Dy) (hh2 : 0 < code.Bounds.Dy) :
    ((∃ img, (GetCode w sc uri).outcome = .returned img) ↔
      4 * cover.Bounds.Dx * (cover.Bounds.Dy + code.Bounds.Dy) < 2 ^ 63) ∧
    ∀ img, (GetCode w sc uri).outcome = .returned img →
      img.Bounds.Dx = cover.Bounds.Dx ∧ img.Bounds.Dy = cover.Bounds.Dy + code.Bounds.Dy := by
  have hout := GetCode_outcome w sc uri cover code hcover hcode
  have hsome := stitch_isSome_iff cover code (by omega) (by omega)
  cases hst : stitch cover code with
  | none =>
    rw [hst] at hout hsome
    simp only [] at hout
    rw [hout]
    refine ⟨⟨fun h => ?_, fun h => ?_⟩, fun img h => ?_⟩
    · obtain ⟨img, h⟩ := h; exact Outcome.noConfusion h
    · exact Bool.noConfusion (hsome.mpr h)
    · exact Outcome.noConfusion h
  | some result =>
    rw [hst] at hout hsome
    simp only [] at hout
    rw [hout]
    refine ⟨⟨fun _ => hsome.mp rfl, fun _ => ⟨_, rfl⟩⟩, fun img h => ?_⟩
    have himg : img = result.toImage := by
      injection h with h; exact h.symm
    have hR := stitch_Rect cover code result (by omega) (by omega) hst
    rw [himg]
    simp only [RGBAImage.toImage, RGBAImage.Bounds, hR, Rectangle.Dx, Rectangle.Dy, sub_zero,
      and_self]

theorem GetCode_dimensions_witness :
    ((∃ img, (GetCode exampleWorld exampleClient (ascii "spotify:album:abc")).outcome
        = .returned img) ↔
      4 * exampleCover.Bounds.Dx * (exampleCover.Bounds.Dy + exampleCode.Bounds.Dy) < 2 ^ 63) ∧
    ∀ img, (GetCode exampleWorld exampleClient (ascii "spotify:album:abc")).outcome
        = .returned img →
      img.Bounds.Dx = exampleCover.Bounds.Dx ∧
        img.Bounds.Dy = exampleCover.Bounds.Dy + exampleCode.Bounds.Dy :=
  GetCode_dimensions exampleWorld exampleClient (ascii "spotify:album:abc") exampleCover
    exampleCode rfl rfl (by decide) (by decide) (by decide)

/-- C2 as stated fails: the cover pixel `(0, 0)` of `exampleCover` has 16-bit
channels `0x1234`, the canvas keeps the high byte `0x12`, so the pixel of the
composite is `0x1212`, not the cover's pixel. -/
theorem GetCode_pixels_counterexample :
    exampleCover.Bounds.Min = Point.mk 0 0 ∧ exampleCode.Bounds.Min = Point.mk 0 0 ∧
    (GetCode exampleWorld exampleClient (ascii "spotify:album:abc")).outcome
      = .returned exampleComposite ∧
    Point.In (Point.mk 0 0) exampleComposite.Bounds = true ∧
    (0 : Int) < exampleCover.Bounds.Max.Y ∧
    exampleComposite.At 0 0 ≠ exampleCover.At 0 0 :=
  ⟨rfl, rfl, rfl, by decide, by decide, by decide⟩

theorem hi8_mul_257 (v : Nat) (h : v < 256) : hi8 (v * 257) = v := by
  unfold hi8
  have h1 : v * 257 / 256 = v := by omega
  rw [h1]
  exact Nat.mod_eq_of_lt h

theorem rgbaModel_toColor (c : RGBA) (hR : c.R < 256) (hG : c.G < 256) (hB : c.B < 256)
    (hA : c.A < 256) : rgbaModel c.toColor = c := by
  cases c with
  | mk r g b a =>
    simp only [rgbaModel, RGBA.toColor, RGBA.mk.injEq] at *
    exact ⟨hi8_mul_257 r hR, hi8_mul_257 g hG, hi8_mul_257 b hB, hi8_mul_257 a hA⟩

/-- C2, amended. For every cover bitmap and code bitmap whose bounds start at
the origin and that the two downloads of `GetCode` return, every pixel
`(x, y)` of the returned composite is: above the cover's height, the cover's
pixel `(x, y)` converted to the canvas's 8-bit RGBA colour; from the cover's
height on and left of the code's width, the code image's pixel
`(x, y - cover height)` converted likewise; from the cover's height on and at
or right of the code's width, the canvas's zero value.  The conversion keeps a
colour that is already 8-bit RGBA as it is; there is no scaling and no
blending with what was there before. -/
theorem GetCode_pixels (w : World) (sc : SpotifyCode) (uri : GoString) (cover code : Image)
    (hcover : (getSpotifyImage w sc uri).outcome = .returned cover)
    (hcode : (getCode w uri (w.dominantHex cover) (ascii "white") cover.Bounds.Dx
      (ascii "png")).outcome = .returned code)
    (hc0 : cover.Bounds.Min = Point.mk 0 0) (hd0 : code.Bounds.Min = Point.mk 0 0)
    (hcx : 0 ≤ cover.Bounds.Max.X) (hcy : 0 ≤ cover.Bounds.Max.Y)
    (hdy : 0 ≤ code.Bounds.Max.Y)
    (img : Image) (himg : (GetCode w sc uri).outcome = .returned img) (x y : Int)
    (hin : Point.In (Point.mk x y) img.Bounds = true) :
    (y < cover.Bounds.Max.Y → img.At x y = (rgbaModel (cover.At x y)).toColor) ∧
    (cover.Bounds.Max.Y ≤ y → x < code.Bounds.Max.X →
      img.At x y = (rgbaModel (code.At x (y - cover.Bounds.Max.Y))).toColor) ∧
    (cover.Bounds.Max.Y ≤ y → code.Bounds.Max.X ≤ x → img.At x y = RGBA.zero.toColor) ∧
    (∀ c : RGBA, c.R < 256 → c.G < 256 → c.B < 256 → c.A < 256 →
      rgbaModel c.toColor = c) := by
  have hout := GetCode_outcome w sc uri cover code hcover hcode
  cases hst : stitch cover code with
  | none =>
    rw [hst] at hout
    simp only [] at hout
    rw [hout] at himg
    exact Outcome.noConfusion himg
  | some result =>
    rw [hst] at hout
    simp only [] at hout
    rw [hout] at himg
    have himg1 : img = result.toImage := by
      injection himg with h; exact h.symm
    rw [himg1] at hin ⊢
    have hp := stitch_Pix cover code result hc0 hd0 hcx hcy hdy hst x y hin
    simp only [RGBAImage.toImage, RGBAImage.At]
    refine ⟨fun h => ?_, fun h1 h2 => ?_, fun h1 h2 => ?_, rgbaModel_toColor⟩
    · rw [hp.1 h]
    · rw [hp.2.1 h1 h2]
    · rw [hp.2.2 h1 h2]

theorem GetCode_pixels_witness :
    ((0 : Int) < exampleCover.Bounds.Max.Y →
      exampleComposite.At 0 0 = (rgbaModel (exampleCover.At 0 0)).toColor) ∧
    (exampleCover.Bounds.Max.Y ≤ 0 → (0 : Int) < exampleCode.Bounds.Max.X →
      exampleComposite.At 0 0
        = (rgbaModel (exampleCode.At 0 (0 - exampleCover.Bounds.Max.Y))).toColor) ∧
    (exampleCover.Bounds.Max.Y ≤ 0 → exampleCode.Bounds.Max.X ≤ 0 →
      exampleComposite.At 0 0 = RGBA.zero.toColor) ∧
    (∀ c : RGBA, c.R < 256 → c.G < 256 → c.B < 256 → c.A < 256 →
      rgbaModel c.toColor = c) :=
  GetCode_pixels exampleWorld exampleClient (ascii "spotify:album:abc") exampleCover
    exampleCode rfl rfl rfl rfl (by decide) (by decide) (by decide) exampleComposite rfl 0 0
    (by decide)

/-! ## String lemmas -/

theorem HasPrefix_single (c d : Byte) (s : GoString) :
    HasPrefix (d :: s) [c] = decide (d = c) := by
  simp [HasPrefix]

theorem Index_single_of_not_mem (c : Byte) (s : GoString) (h : c ∉ s) :
    Index [c] s = none := by
  induction s with
  | nil => simp [Index, HasPrefix]
  | cons d t ih =>
    have hd : d ≠ c := fun e => h (by simp [e])
    have ht : c ∉ t := fun e => h (by simp [e])
    simp [Index, HasPrefix_single, hd, ih ht]

theorem Index_single_append (c : Byte) (a t : GoString) (h : c ∉ a) :
    Index [c] (a ++ c :: t) = some a.length := by
  induction a with
  | nil => simp [Index, HasPrefix_single]
  | cons d a ih =>
    have hd : d ≠ c := fun e => h (by simp [e])
    have ht : c ∉ a := fun e => h (by simp [e])
    simp [Index, HasPrefix_single, hd, ih ht]

/-- A found separator byte splits the string at its first occurrence. -/
theorem Index_single_some (c : Byte) (s : GoString) (m : Nat) (h : Index [c] s = some m) :
    c ∉ s.take m ∧ s = s.take m ++ c :: s.drop (m + 1) := by
  induction s generalizing m with
  | nil => simp [Index, HasPrefix] at h
  | cons d t ih =>
    by_cases hd : d = c
    · simp [Index, HasPrefix_single, hd] at h
      subst h
      simp [hd]
    · simp [Index, HasPrefix_single, hd] at h
      obtain ⟨k, hk, rfl⟩ := h
      have := ih k hk
      simp only [List.take_succ_cons, List.drop_succ_cons, List.mem_cons, List.cons_append,
        List.cons.injEq, true_and]
      exact ⟨fun e => e.elim (fun e => hd e.symm) this.1, this.2⟩

/-- Every string either has no separator byte, or splits at the first one. -/
theorem split_first (c : Byte) (s : GoString) :
    c ∉ s ∨ ∃ a t, c ∉ a ∧ s = a ++ c :: t := by
  induction s with
  | nil => left; simp
  | cons d t ih =>
    by_cases hd : d = c
    · exact Or.inr ⟨[], t, by simp, by simp [hd]⟩
    · rcases ih with h | ⟨a, u, ha, hu⟩
      · exact Or.inl (by simp [h, Ne.symm hd])
      · exact Or.inr ⟨d :: a, u, by simp [ha, Ne.symm hd], by simp [hu]⟩

/-- The number of parts: one more than the number of separator bytes, capped
at the limit. -/
theorem length_genSplitLoop (c : Byte) (k : Nat) (s : GoString) :
    (genSplitLoop [c] k s).length = min (k + 1) (s.count c + 1) := by
  induction k generalizing s with
  | zero => simp [genSplitLoop]
  | succ k ih =>
    rcases split_first c s with h | ⟨a, t, ha, rfl⟩
    · simp [genSplitLoop, Index_single_of_not_mem c s h, List.count_eq_zero_of_not_mem h]
    · simp [genSplitLoop, Index_single_append c a t ha, ih, List.count_append,
        List.count_eq_zero_of_not_mem ha]
      omega

theorem length_SplitN_3 (c : Byte) (s : GoString) :
    (SplitN s [c] 3).length = min 3 (s.count c + 1) := by
  simp [SplitN, length_genSplitLoop]

/-- With at least two separator bytes, `SplitN(s, sep, 3)` yields the text
before the first, the text between the first two, and all the rest. -/
theorem SplitN_3_append (c : Byte) (a b rest : GoString) (ha : c ∉ a) (hb : c ∉ b) :
    SplitN (a ++ c :: (b ++ c :: rest)) [c] 3 = [a, b, rest] := by
  simp [SplitN, genSplitLoop, Index_single_append, ha, hb]

theorem exists_three_parts (c : Byte) (s : GoString) (h : 2 ≤ s.count c) :
    ∃ a b rest, c ∉ a ∧ c ∉ b ∧ s = a ++ c :: (b ++ c :: rest) := by
  rcases split_first c s with h1 | ⟨a, t, ha, rfl⟩
  · rw [List.count_eq_zero_of_not_mem h1] at h; omega
  · rcases split_first c t with h2 | ⟨b, rest, hb, rfl⟩
    · simp [List.count_append, List.count_eq_zero_of_not_mem ha,
        List.count_eq_zero_of_not_mem h2] at h
    · exact ⟨a, b, rest, ha, hb, rfl⟩

/-! ## `getSpotifyImage` -/

theorem ascii_colon : ascii ":" = [colon] := rfl

/-- The run of `getSpotifyImage` on an identifier with at least two `:`, once
the `switch` has chosen a URL. -/
theorem getSpotifyImage_of_parts (w : World) (sc : SpotifyCode) (a b rest url : GoString)
    (ha : colon ∉ a) (hb : colon ∉ b) (hurl : resourceURL b rest = some url) :
    getSpotifyImage w sc (a ++ colon :: (b ++ colon :: rest)) =
      if !w.parseURL url then
        Run.mk [.newRequest (ascii "GET") url] (.panicked .nilRequest)
      else
        match w.roundTrip (Request.mk (ascii "GET") url
            [(ascii "Authorization", ascii "Bearer " ++ sc.spAccessToken)]) with
        | none =>
          Run.mk [.newRequest (ascii "GET") url, .send (Request.mk (ascii "GET") url
            [(ascii "Authorization", ascii "Bearer " ++ sc.spAccessToken)])] (.fatal .transport)
        | some body =>
          match w.decodeAlbum body with
          | none =>
            Run.mk [.newRequest (ascii "GET") url, .send (Request.mk (ascii "GET") url
              [(ascii "Authorization", ascii "Bearer " ++ sc.spAccessToken)])]
              (.fatal .decodingResponse)
          | some spotifyAlbumResponse =>
            match spotifyAlbumResponse.Images[0]? with
            | none =>
              Run.mk [.newRequest (ascii "GET") url, .send (Request.mk (ascii "GET") url
                [(ascii "Authorization", ascii "Bearer " ++ sc.spAccessToken)])]
                (.panicked .indexOutOfRange)
            | some first =>
              Run.mk ([.newRequest (ascii "GET") url, .send (Request.mk (ascii "GET") url
                [(ascii "Authorization", ascii "Bearer " ++ sc.spAccessToken)])]
                ++ (fetchImage w first.Url).events) (fetchImage w first.Url).outcome := by
  unfold getSpotifyImage
  simp only [ascii_colon, SplitN_3_append colon a b rest ha hb]
  simp only [List.length_cons, List.length_nil, ne_eq, not_true_eq_false, if_false,
    List.getD_cons_succ, List.getD_cons_zero, hurl]

/-- The events of `fetchImage`: the request is built, and sent when it could
be built. -/
theorem fetchImage_events (w : World) (url : GoString) :
    (fetchImage w url).events =
      if w.parseURL url then
        [.newRequest (ascii "GET") url, .send (Request.mk (ascii "GET") url [])]
      else [.newRequest (ascii "GET") url] := by
  unfold fetchImage
  cases hp : w.parseURL url
  · simp
  · simp only [Bool.not_true, Bool.false_eq_true, if_false, if_true]
    split
    · rfl
    · split <;> rfl

/-- The only fatal errors of `fetchImage` are transport and image decoding. -/
theorem fetchImage_fatal (w : World) (url : GoString) (f : Fatal)
    (h : (fetchImage w url).outcome = .fatal f) : f = .transport ∨ f = .decodingImage := by
  unfold fetchImage at h
  simp only [] at h
  split at h
  · exact Outcome.noConfusion h
  · split at h
    · injection h with h; exact Or.inl h.symm
    · split at h
      · injection h with h; exact Or.inr h.symm
      · exact Outcome.noConfusion h

/-- C4. For every identifier with fewer than two `:` bytes (so fewer than
three parts, the empty string included), in every environment,
`getSpotifyImage` ends in the fatal error "SpotifyURI is malformed!" without
having built or sent any HTTP request. -/
theorem getSpotifyImage_fewer_than_three_parts (w : World) (sc : SpotifyCode) (uri : GoString)
    (h : uri.count colon < 2) :
    (SplitN uri (ascii ":") 3).length = uri.count colon + 1 ∧
    (getSpotifyImage w sc uri).events = [] ∧
    (getSpotifyImage w sc uri).outcome = .fatal .malformedURI := by
  have hl := length_SplitN_3 colon uri
  rw [← ascii_colon] at hl
  have hne : (SplitN uri (ascii ":") 3).length ≠ 3 := by omega
  refine ⟨by omega, ?_, ?_⟩
  · unfold getSpotifyImage
    simp only [hne, ne_eq, not_false_eq_true, if_true]
  · unfold getSpotifyImage
    simp only [hne, ne_eq, not_false_eq_true, if_true]

theorem getSpotifyImage_fewer_than_three_parts_witness :
    (SplitN (ascii "spotify:album") (ascii ":") 3).length
      = (ascii "spotify:album").count colon + 1 ∧
    (getSpotifyImage exampleWorld exampleClient (ascii "spotify:album")).events = [] ∧
    (getSpotifyImage exampleWorld exampleClient (ascii "spotify:album")).outcome
      = .fatal .malformedURI :=
  getSpotifyImage_fewer_than_three_parts exampleWorld exampleClient (ascii "spotify:album")
    (by decide)

/-- C5 as stated fails: `spotify:album:abc:def` has three `:`, and
`getSpotifyImage` does not end in a fatal error; it builds and sends the
lookup request for the album `abc:def`, then downloads the cover, and
returns it. -/
theorem getSpotifyImage_more_than_three_parts_counterexample :
    3 ≤ (ascii "spotify:album:abc:def").count colon ∧
    (getSpotifyImage exampleWorld exampleClient (ascii "spotify:album:abc:def")).events =
      [.newRequest (ascii "GET") (ascii "https://api.spotify.com/v1/albums/abc:def"),
       .send (Request.mk (ascii "GET") (ascii "https://api.spotify.com/v1/albums/abc:def")
          [(ascii "Authorization", ascii "Bearer tok123")]),
       .newRequest (ascii "GET") (ascii "cover.png"),
       .send (Request.mk (ascii "GET") (ascii "cover.png") [])] ∧
    (getSpotifyImage exampleWorld exampleClient (ascii "spotify:album:abc:def")).outcome
      = .returned exampleCover :=
  ⟨by decide, rfl, rfl⟩

/-- C5, amended. For every identifier with three or more `:` bytes,
`SplitN(spotifyUri, ":", 3)` yields exactly three parts, the third being all
that follows the second `:` (further `:` included), so `getSpotifyImage`
never ends in the malformed-identifier error; when the second part is
`album`, its first effect is to build the lookup request for
`https://api.spotify.com/v1/albums/` followed by that third part. -/
theorem getSpotifyImage_more_than_three_parts (uri : GoString) (h : 3 ≤ uri.count colon) :
    ∃ a b rest, colon ∉ a ∧ colon ∉ b ∧ colon ∈ rest ∧
      uri = a ++ ascii ":" ++ b ++ ascii ":" ++ rest ∧
      SplitN uri (ascii ":") 3 = [a, b, rest] ∧
      ∀ (w : World) (sc : SpotifyCode),
        (getSpotifyImage w sc uri).outcome ≠ .fatal .malformedURI ∧
        (b = ascii "album" →
          (getSpotifyImage w sc uri).events.head? =
            some (.newRequest (ascii "GET")
              (ascii "https://api.spotify.com/v1/albums/" ++ rest))) := by
  obtain ⟨a, b, rest, ha, hb, rfl⟩ := exists_three_parts colon uri (by omega)
  have hrest : colon ∈ rest := by
    by_contra hc
    simp [List.count_append, List.count_eq_zero_of_not_mem ha,
      List.count_eq_zero_of_not_mem hb, List.count_eq_zero_of_not_mem hc] at h
  refine ⟨a, b, rest, ha, hb, hrest, by simp [ascii_colon], ?_, fun w sc => ⟨?_, ?_⟩⟩
  · rw [ascii_colon]; exact SplitN_3_append colon a b rest ha hb
  · cases hurl : resourceURL b rest with
    | none =>
      unfold getSpotifyImage
      simp only [ascii_colon, SplitN_3_append colon a b rest ha hb]
      simp [hurl]
    | some url =>
      rw [getSpotifyImage_of_parts w sc a b rest url ha hb hurl]
      split
      · simp
      · split
        · simp
        · split
          · simp
          · split
            · simp
            · intro hc
              rcases fetchImage_fatal w _ _ hc with h1 | h1 <;> exact Fatal.noConfusion h1
  · intro hb2
    have hurl : resourceURL b rest = some (ascii "https://api.spotify.com/v1/albums/" ++ rest) := by
      simp [resourceURL, hb2]
    rw [getSpotifyImage_of_parts w sc a b rest _ ha hb hurl]
    split
    · rfl
    · split
      · rfl
      · split
        · rfl
        · split
          · rfl
          · rfl

theorem getSpotifyImage_more_than_three_parts_witness :
    ∃ a b rest, colon ∉ a ∧ colon ∉ b ∧ colon ∈ rest ∧
      ascii "spotify:album:abc:def" = a ++ ascii ":" ++ b ++ ascii ":" ++ rest ∧
      SplitN (ascii "spotify:album:abc:def") (ascii ":") 3 = [a, b, rest] ∧
      ∀ (w : World) (sc : SpotifyCode),
        (getSpotifyImage w sc (ascii "spotify:album:abc:def")).outcome ≠ .fatal .malformedURI ∧
        (b = ascii "album" →
          (getSpotifyImage w sc (ascii "spotify:album:abc:def")).events.head? =
            some (.newRequest (ascii "GET")
              (ascii "https://api.spotify.com/v1/albums/" ++ rest))) :=
  getSpotifyImage_more_than_three_parts (ascii "spotify:album:abc:def") (by decide)

theorem album_uri_eq (scheme id : GoString) :
    scheme ++ ascii ":" ++ ascii "album" ++ ascii ":" ++ id
      = scheme ++ colon :: (ascii "album" ++ colon :: id) := by
  simp [ascii_colon]

theorem resourceURL_album (id : GoString) :
    resourceURL (ascii "album") id = some (ascii "https://api.spotify.com/v1/albums/" ++ id) := by
  simp [resourceURL]

/-- C3. For every identifier `scheme:album:id` (no `:` in `scheme`) and every
environment in which the lookup request can be built, is answered, and the
answer decodes to an album response whose images list starts with `first`:
`getSpotifyImage` builds and sends the lookup request for
`https://api.spotify.com/v1/albums/` followed by `id`, with the bearer token,
then builds the download request for exactly `first.Url`, and the only other
request it can send is that download request; the rest of the list and the
`Width` and `Height` fields play no role, and the function ends as that
download does. -/
theorem getSpotifyImage_album (w : World) (sc : SpotifyCode) (scheme id body : GoString)
    (first : ImageEntry) (others : List ImageEntry)
    (hs : colon ∉ scheme)
    (hparse : w.parseURL (ascii "https://api.spotify.com/v1/albums/" ++ id) = true)
    (hrt : w.roundTrip (Request.mk (ascii "GET")
        (ascii "https://api.spotify.com/v1/albums/" ++ id)
        [(ascii "Authorization", ascii "Bearer " ++ sc.spAccessToken)]) = some body)
    (hdec : w.decodeAlbum body = some (SpotifyAlbumResponse.mk (first :: others))) :
    (getSpotifyImage w sc (scheme ++ ascii ":" ++ ascii "album" ++ ascii ":" ++ id)).events =
      [.newRequest (ascii "GET") (ascii "https://api.spotify.com/v1/albums/" ++ id),
       .send (Request.mk (ascii "GET") (ascii "https://api.spotify.com/v1/albums/" ++ id)
          [(ascii "Authorization", ascii "Bearer " ++ sc.spAccessToken)]),
       .newRequest (ascii "GET") first.Url] ++
        (if w.parseURL first.Url then [.send (Request.mk (ascii "GET") first.Url [])] else []) ∧
    (getSpotifyImage w sc (scheme ++ ascii ":" ++ ascii "album" ++ ascii ":" ++ id)).outcome =
      (fetchImage w first.Url).outcome := by
  rw [album_uri_eq, getSpotifyImage_of_parts w sc scheme (ascii "album") id _ hs (by decide)
    (resourceURL_album id)]
  simp only [hparse, Bool.not_true, Bool.false_eq_true, if_false, hrt, hdec,
    List.getElem?_cons_zero, fetchImage_events]
  cases w.parseURL first.Url <;> simp

theorem getSpotifyImage_album_witness :
    (getSpotifyImage exampleWorld exampleClient
        (ascii "spotify" ++ ascii ":" ++ ascii "album" ++ ascii ":" ++ ascii "abc")).events =
      [.newRequest (ascii "GET") (ascii "https://api.spotify.com/v1/albums/" ++ ascii "abc"),
       .send (Request.mk (ascii "GET") (ascii "https://api.spotify.com/v1/albums/" ++ ascii "abc")
          [(ascii "Authorization", ascii "Bearer " ++ exampleClient.spAccessToken)]),
       .newRequest (ascii "GET") (ImageEntry.mk (ascii "cover.png") 2 2).Url] ++
        (if exampleWorld.parseURL (ImageEntry.mk (ascii "cover.png") 2 2).Url then
          [.send (Request.mk (ascii "GET") (ImageEntry.mk (ascii "cover.png") 2 2).Url [])]
        else []) ∧
    (getSpotifyImage exampleWorld exampleClient
        (ascii "spotify" ++ ascii ":" ++ ascii "album" ++ ascii ":" ++ ascii "abc")).outcome =
      (fetchImage exampleWorld (ImageEntry.mk (ascii "cover.png") 2 2).Url).outcome :=
  getSpotifyImage_album exampleWorld exampleClient (ascii "spotify") (ascii "abc")
    (ascii "https://api.spotify.com/v1/albums/" ++ ascii "abc")
    (ImageEntry.mk (ascii "cover.png") 2 2) [ImageEntry.mk (ascii "large.png") 640 640]
    (by decide) rfl rfl rfl

/-- A resource type other than `album` and `artist` reaches the `default`
branch: the fatal error "No implemented behavior for content_type!", before
any request is built. -/
theorem getSpotifyImage_default (w : World) (sc : SpotifyCode) (scheme ty id : GoString)
    (hs : colon ∉ scheme) (ht : colon ∉ ty) (h1 : ty ≠ ascii "album")
    (h2 : ty ≠ ascii "artist") :
    getSpotifyImage w sc (scheme ++ colon :: (ty ++ colon :: id))
      = Run.mk [] (.fatal .notImplemented) := by
  unfold getSpotifyImage
  simp only [ascii_colon, SplitN_3_append colon scheme ty id hs ht]
  simp [resourceURL, h1, h2]

/-- C6 on the identifier `spotify:artist:abc`: in every environment the
first effect of `getSpotifyImage` is to build a GET request for the empty
URL, and the run does not end in the not-implemented error. -/
theorem getSpotifyImage_artist (w : World) (sc : SpotifyCode) :
    (getSpotifyImage w sc (ascii "spotify:artist:abc")).events.head?
      = some (.newRequest (ascii "GET") []) ∧
    (getSpotifyImage w sc (ascii "spotify:artist:abc")).outcome ≠ .fatal .notImplemented := by
  have huri : ascii "spotify:artist:abc"
      = ascii "spotify" ++ colon :: (ascii "artist" ++ colon :: ascii "abc") := by decide
  have hurl : resourceURL (ascii "artist") (ascii "abc") = some [] := by decide
  rw [huri, getSpotifyImage_of_parts w sc _ _ _ _ (by decide) (by decide) hurl]
  constructor
  · split
    · rfl
    · split
      · rfl
      · split
        · rfl
        · split
          · rfl
          · rfl
  · split
    · simp
    · split
      · simp
      · split
        · simp
        · split
          · simp
          · intro hc
            rcases fetchImage_fatal w _ _ hc with h1 | h1 <;> exact Fatal.noConfusion h1

/-- C10. For every identifier `scheme:album:id` and every environment in
which the lookup is answered and decodes to an album response with an empty
images list, `getSpotifyImage` has built and sent the lookup request and
nothing else (no image-download request), and it ends in the index-out-of-range
panic, which is none of its fatal errors and returns no image.  The lookup of
the first entry succeeds exactly when the list is non-empty. -/
theorem getSpotifyImage_empty_images (w : World) (sc : SpotifyCode) (scheme id body : GoString)
    (hs : colon ∉ scheme)
    (hparse : w.parseURL (ascii "https://api.spotify.com/v1/albums/" ++ id) = true)
    (hrt : w.roundTrip (Request.mk (ascii "GET")
        (ascii "https://api.spotify.com/v1/albums/" ++ id)
        [(ascii "Authorization", ascii "Bearer " ++ sc.spAccessToken)]) = some body)
    (hdec : w.decodeAlbum body = some (SpotifyAlbumResponse.mk [])) :
    (getSpotifyImage w sc (scheme ++ ascii ":" ++ ascii "album" ++ ascii ":" ++ id)).events =
      [.newRequest (ascii "GET") (ascii "https://api.spotify.com/v1/albums/" ++ id),
       .send (Request.mk (ascii "GET") (ascii "https://api.spotify.com/v1/albums/" ++ id)
          [(ascii "Authorization", ascii "Bearer " ++ sc.spAccessToken)])] ∧
    (getSpotifyImage w sc (scheme ++ ascii ":" ++ ascii "album" ++ ascii ":" ++ id)).outcome =
      .panicked .indexOutOfRange ∧
    (∀ f, (getSpotifyImage w sc (scheme ++ ascii ":" ++ ascii "album" ++ ascii ":" ++ id)).outcome
      ≠ .fatal f) ∧
    (∀ img, (getSpotifyImage w sc (scheme ++ ascii ":" ++ ascii "album" ++ ascii ":" ++ id)).outcome
      ≠ .returned img) ∧
    (∀ r : SpotifyAlbumResponse, (r.Images[0]?).isSome = true ↔ r.Images ≠ []) := by
  rw [album_uri_eq, getSpotifyImage_of_parts w sc scheme (ascii "album") id _ hs (by decide)
    (resourceURL_album id)]
  simp only [hparse, Bool.not_true, Bool.false_eq_true, if_false, hrt, hdec]
  refine ⟨rfl, rfl, fun f h => ?_, fun img h => ?_, fun r => ?_⟩
  · exact Outcome.noConfusion h
  · exact Outcome.noConfusion h
  · cases r with
    | mk l => cases l <;> simp

theorem getSpotifyImage_empty_images_witness :
    (getSpotifyImage emptyAlbumWorld exampleClient
        (ascii "spotify" ++ ascii ":" ++ ascii "album" ++ ascii ":" ++ ascii "abc")).events =
      [.newRequest (ascii "GET") (ascii "https://api.spotify.com/v1/albums/" ++ ascii "abc"),
       .send (Request.mk (ascii "GET") (ascii "https://api.spotify.com/v1/albums/" ++ ascii "abc")
          [(ascii "Authorization", ascii "Bearer " ++ exampleClient.spAccessToken)])] ∧
    (getSpotifyImage emptyAlbumWorld exampleClient
        (ascii "spotify" ++ ascii ":" ++ ascii "album" ++ ascii ":" ++ ascii "abc")).outcome =
      .panicked .indexOutOfRange ∧
    (∀ f, (getSpotifyImage emptyAlbumWorld exampleClient
        (ascii "spotify" ++ ascii ":" ++ ascii "album" ++ ascii ":" ++ ascii "abc")).outcome
      ≠ .fatal f) ∧
    (∀ img, (getSpotifyImage emptyAlbumWorld exampleClient
        (ascii "spotify" ++ ascii ":" ++ ascii "album" ++ ascii ":" ++ ascii "abc")).outcome
      ≠ .returned img) ∧
    (∀ r : SpotifyAlbumResponse, (r.Images[0]?).isSome = true ↔ r.Images ≠ []) :=
  getSpotifyImage_empty_images emptyAlbumWorld exampleClient (ascii "spotify") (ascii "abc")
    (ascii "https://api.spotify.com/v1/albums/" ++ ascii "abc") (by decide) rfl rfl rfl

/-! ## `getCode` -/

theorem ascii_hash : ascii "#" = [hash] := rfl

theorem stripColor_of_not_mem (color : GoString) (h : hash ∉ color) :
    stripColor color = color := by
  simp [stripColor, Replace, ascii_hash, replaceLoop, Index_single_of_not_mem hash color h]

theorem stripColor_append (pre post : GoString) (h : hash ∉ pre) :
    stripColor (pre ++ hash :: post) = pre ++ post := by
  simp [stripColor, Replace, ascii_hash, replaceLoop, Index_single_append hash pre post h]

/-- C7 as stated fails: the colour `a#b` does not start with `#`, yet the
colour placed in the URL is `ab`, not `a#b`. -/
theorem stripColor_counterexample :
    HasPrefix (ascii "a#b") (ascii "#") = false ∧
    stripColor (ascii "a#b") = ascii "ab" ∧
    stripColor (ascii "a#b") ≠ ascii "a#b" ∧
    (getCode exampleWorld (ascii "spotify:album:abc") (ascii "a#b") (ascii "white") 2
        (ascii "png")).events.head? =
      some (.newRequest (ascii "GET")
        (ascii "https://www.spotifycodes.com/downloadCode.php?uri=png%2Fab%2Fwhite%2F2%2Fspotify%3Aalbum%3Aabc")) :=
  ⟨by decide, by decide, by decide, by decide⟩

/-- C7, amended. For every colour string passed to `getCode`, the colour
placed in the code-image URL is the input with its first `#` removed,
wherever that `#` stands: the input without its leading `#` when it starts
with `#`, the input unchanged when it contains no `#`, and in general, for an
input `pre#post` with no `#` in `pre`, the string `prepost`. -/
theorem stripColor_spec (w : World) (spotifyUri color barColor : GoString) (size : Int)
    (format : GoString) :
    getCode w spotifyUri color barColor size format
      = fetchImage w (rawURL spotifyUri (stripColor color) barColor size format) ∧
    (∀ rest, color = hash :: rest → stripColor color = rest) ∧
    (hash ∉ color → stripColor color = color) ∧
    (∀ pre post, hash ∉ pre → color = pre ++ hash :: post → stripColor color = pre ++ post) := by
  refine ⟨rfl, fun rest h => ?_, stripColor_of_not_mem color, fun pre post h1 h2 => ?_⟩
  · rw [h]; exact stripColor_append [] rest (by simp)
  · rw [h2]; exact stripColor_append pre post h1

/-! ## `SaveImage` -/

/-- C9. For every image, base name and environment, `SaveImage` first
creates the file named base name + `.png` and always returns to its caller
(no fatal exit, no panic).  If the creation fails it prints "Error creating
file:" and does nothing else: no encoding, nothing written.  If the encoding
fails it prints "Error encoding image:", closes the file and returns. -/
theorem SaveImage_spec (w : World) (img : Image) (fname : GoString) :
    (SaveImage w img fname).outcome = .returned () ∧
    (SaveImage w img fname).events.head? = some (.create (fname ++ ascii ".png")) ∧
    (w.createOk (fname ++ ascii ".png") = false →
      (SaveImage w img fname).events =
        [.create (fname ++ ascii ".png"), .println (ascii "Error creating file:")]) ∧
    (w.createOk (fname ++ ascii ".png") = true → w.encodeOk img = false →
      (SaveImage w img fname).events =
        [.create (fname ++ ascii ".png"), .encode (fname ++ ascii ".png"),
         .println (ascii "Error encoding image:"), .close (fname ++ ascii ".png")]) ∧
    (w.createOk (fname ++ ascii ".png") = true → w.encodeOk img = true →
      (SaveImage w img fname).events =
        [.create (fname ++ ascii ".png"), .encode (fname ++ ascii ".png"),
         .close (fname ++ ascii ".png")]) := by
  cases h1 : w.createOk (fname ++ ascii ".png") <;> cases h2 : w.encodeOk img <;>
    simp [SaveImage, h1, h2]

/-! ## `url.QueryEscape` -/

set_option maxRecDepth 100000 in
theorem escapeByte_cases (c : Byte) :
    (c.val = 32 ∧ escapeByte c = [43]) ∨
    (c.val ≠ 32 ∧ unreserved c = false ∧
      escapeByte c = [37, upperhex (c.val / 16), upperhex (c.val % 16)]) ∨
    (unreserved c = true ∧ c.val ≠ 37 ∧ c.val ≠ 43 ∧ c.val ≠ 32 ∧ c.val ≠ 47 ∧ c.val ≠ 58 ∧
      c.val ≠ 35 ∧ escapeByte c = [c]) := by
  revert c
  decide

set_option maxRecDepth 100000 in
theorem upperhex_roundtrip (c : Byte) :
    (ishex (upperhex (c.val / 16)) && ishex (upperhex (c.val % 16))) = true ∧
    (Fin.ofNat (unhex (upperhex (c.val / 16)) * 16 + unhex (upperhex (c.val % 16))) : Byte) = c ∧
    escapedOnly [37, upperhex (c.val / 16), upperhex (c.val % 16)] = true := by
  revert c
  decide

set_option maxRecDepth 100000 in
theorem escapeByte_all_no_raw (c : Byte) :
    (escapeByte c).all (fun ch => decide (ch.val ≠ 47 ∧ ch.val ≠ 58 ∧ ch.val ≠ 35 ∧ ch.val ≠ 32))
      = true := by
  revert c
  decide

theorem escapeByte_no_raw (c : Byte) :
    ∀ ch ∈ escapeByte c, ch.val ≠ 47 ∧ ch.val ≠ 58 ∧ ch.val ≠ 35 ∧ ch.val ≠ 32 := by
  intro ch hch
  have h := escapeByte_all_no_raw c
  rw [List.all_eq_true] at h
  exact of_decide_eq_true (h ch hch)

theorem QueryUnescape_cons (c : Byte) (t : GoString) (h1 : c.val ≠ 37) :
    QueryUnescape (c :: t) =
      if c.val = 43 then (QueryUnescape t).map (fun u => (32 : Byte) :: u)
      else (QueryUnescape t).map (fun u => c :: u) := by
  rcases t with _ | ⟨h, _ | ⟨l, r⟩⟩ <;> simp [QueryUnescape, h1]

theorem escapedOnly_cons (c : Byte) (t : GoString) (h1 : c.val ≠ 37) :
    escapedOnly (c :: t) = ((unreserved c || decide (c.val = 43)) && escapedOnly t) := by
  rcases t with _ | ⟨h, _ | ⟨l, r⟩⟩ <;> simp [escapedOnly, h1]

theorem QueryUnescape_escapeByte (c : Byte) (t : GoString) :
    QueryUnescape (escapeByte c ++ t) = (QueryUnescape t).map (fun u => c :: u) := by
  rcases escapeByte_cases c with ⟨h, e⟩ | ⟨_, _, e⟩ | ⟨_, h1, h2, _, _, _, _, e⟩
  · have hc : c = (32 : Byte) := Fin.ext h
    rw [e, hc]
    simp only [List.cons_append, List.nil_append]
    rw [QueryUnescape_cons _ _ (by decide), if_pos (by decide)]
  · have hh := upperhex_roundtrip c
    rw [e]
    simp only [List.cons_append, List.nil_append]
    rw [QueryUnescape, if_pos (by decide), if_pos hh.1, hh.2.1]
  · rw [e]
    simp only [List.cons_append, List.nil_append]
    rw [QueryUnescape_cons _ _ h1, if_neg h2]

theorem escapedOnly_escapeByte (c : Byte) (t : GoString) :
    escapedOnly (escapeByte c ++ t) = escapedOnly t := by
  rcases escapeByte_cases c with ⟨h, e⟩ | ⟨_, _, e⟩ | ⟨hu, h1, _, _, _, _, _, e⟩
  · rw [e]
    simp only [List.cons_append, List.nil_append]
    rw [escapedOnly_cons _ _ (by decide)]
    have h43 : (unreserved (43 : Byte) || decide ((43 : Byte).val = 43)) = true := by decide
    rw [h43, Bool.true_and]
  · have hh := (upperhex_roundtrip c).2.2
    rw [e]
    simp only [List.cons_append, List.nil_append]
    rw [escapedOnly, if_pos (by decide)] at hh ⊢
    simp only [escapedOnly, Bool.and_true] at hh
    rw [hh, Bool.true_and]
  · rw [e]
    simp only [List.cons_append, List.nil_append]
    rw [escapedOnly_cons _ _ h1, hu]
    simp

theorem QueryUnescape_QueryEscape (s : GoString) : QueryUnescape (QueryEscape s) = some s := by
  induction s with
  | nil => rfl
  | cons c t ih =>
    have : QueryEscape (c :: t) = escapeByte c ++ QueryEscape t := by
      simp [QueryEscape]
    rw [this, QueryUnescape_escapeByte, ih]
    rfl

theorem escapedOnly_QueryEscape (s : GoString) : escapedOnly (QueryEscape s) = true := by
  induction s with
  | nil => rfl
  | cons c t ih =>
    have : QueryEscape (c :: t) = escapeByte c ++ QueryEscape t := by
      simp [QueryEscape]
    rw [this, escapedOnly_escapeByte, ih]

theorem QueryEscape_no_raw (s : GoString) :
    ∀ ch ∈ QueryEscape s, ch.val ≠ 47 ∧ ch.val ≠ 58 ∧ ch.val ≠ 35 ∧ ch.val ≠ 32 := by
  intro ch hch
  simp only [QueryEscape, List.mem_flatMap] at hch
  obtain ⟨c, _, hc⟩ := hch
  exact escapeByte_no_raw c ch hc

/-- C8. For every identifier, colour, bar colour, size and format, in every
environment, the first effect of `getCode` is to build the GET request for
`https://www.spotifycodes.com/downloadCode.php?uri=` followed by the format
and by the query-escaped segment `/colour/barColour/size/identifier` (colour
after line 124, size in decimal), and no other request is sent.  The escaped
segment consists of unreserved characters, `+` and `%XX` escapes only, it
contains no raw `/`, `:`, `#` or space, and `url.QueryUnescape` gives the
segment back. -/
theorem getCode_url (w : World) (spotifyUri color barColor : GoString) (size : Int)
    (format : GoString) :
    (getCode w spotifyUri color barColor size format).events.head? =
      some (.newRequest (ascii "GET")
        (ascii "https://www.spotifycodes.com/downloadCode.php?uri=" ++ format ++
          QueryEscape (segment spotifyUri (stripColor color) barColor size))) ∧
    (∀ req, Event.send req ∈ (getCode w spotifyUri color barColor size format).events →
      req = Request.mk (ascii "GET")
        (ascii "https://www.spotifycodes.com/downloadCode.php?uri=" ++ format ++
          QueryEscape (segment spotifyUri (stripColor color) barColor size)) []) ∧
    segment spotifyUri (stripColor color) barColor size =
      ascii "/" ++ stripColor color ++ ascii "/" ++ barColor ++ ascii "/" ++ formatInt size
        ++ ascii "/" ++ spotifyUri ∧
    escapedOnly (QueryEscape (segment spotifyUri (stripColor color) barColor size)) = true ∧
    (∀ ch ∈ QueryEscape (segment spotifyUri (stripColor color) barColor size),
      ch.val ≠ 47 ∧ ch.val ≠ 58 ∧ ch.val ≠ 35 ∧ ch.val ≠ 32) ∧
    QueryUnescape (QueryEscape (segment spotifyUri (stripColor color) barColor size)) =
      some (segment spotifyUri (stripColor color) barColor size) := by
  refine ⟨?_, ?_, rfl, escapedOnly_QueryEscape _, QueryEscape_no_raw _,
    QueryUnescape_QueryEscape _⟩
  · simp only [getCode, fetchImage_events, rawURL]
    split <;> rfl
  · intro req hreq
    simp only [getCode, fetchImage_events, rawURL] at hreq
    split at hreq
    · simp at hreq
      exact hreq
    · simp at hreq

/-- The run of `getCode` on the colour `#1db954` and the size 640: the URL
that is requested. -/
theorem getCode_url_example :
    (getCode exampleWorld (ascii "spotify:album:abc") (ascii "#1db954") (ascii "white") 640
        (ascii "png")).events =
      [.newRequest (ascii "GET")
        (ascii "https://www.spotifycodes.com/downloadCode.php?uri=png%2F1db954%2Fwhite%2F640%2Fspotify%3Aalbum%3Aabc"),
       .send (Request.mk (ascii "GET")
        (ascii "https://www.spotifycodes.com/downloadCode.php?uri=png%2F1db954%2Fwhite%2F640%2Fspotify%3Aalbum%3Aabc")
        [])] ∧
    formatInt (-12) = ascii "-12" ∧
    QueryEscape (ascii "a b~c/d") = ascii "a+b~c%2Fd" := by
  decide

end SpotifyCodeClient
